import Mathlib

/-!
Verification development for the Intuita VS Code extension repository.

The definitions below are shallow embeddings of the TypeScript sources:
the campaign manager tree builder and the extension commands
(src/unnamed/part_001), the main webview provider and the codemod list
panel provider (src/unnamed/part_000), and the persisted state codec
(src/unnamed/part_002).  Components of the repository that are not part
of the provided sources (the redux slice reducers, the explorer tree
selector, the job manager and the engine execution queue) are modelled
from the specification; every such definition carries a doc comment
starting with the words Modelled from the spec.
-/

set_option linter.unusedVariables false

/-- Association-list lookup keyed by decidable equality, returning the value
stored at the first matching key. -/
def lookupAssoc {α β : Type} [DecidableEq α] : List (α × β) → α → Option β
  | [], _ => none
  | p :: tl, k => if p.1 = k then some p.2 else lookupAssoc tl k

/-- Replace the value stored at a key, appending the binding when the key is
absent. -/
def setAssoc {α β : Type} [DecidableEq α] : List (α × β) → α → β → List (α × β)
  | [], k, v => [(k, v)]
  | p :: tl, k, v => if p.1 = k then (k, v) :: tl else p :: setAssoc tl k v

/-- JavaScript Set.add semantics: append the element unless an identical one is
already present. -/
def addElem {α : Type} [DecidableEq α] (s : List α) (a : α) : List α :=
  if a ∈ s then s else s ++ [a]

/-- JavaScript new Set(list) iterated in insertion order: the list with later
duplicates removed, keeping the first occurrence of each element. -/
def jsSetOfList {α : Type} [DecidableEq α] (l : List α) : List α :=
  l.foldl addElem []

/-- A vscode.Uri value as held by a job.  objId models JavaScript object
identity: a JavaScript Set of Uri objects deduplicates by reference, so two
Uri objects with equal uri strings but distinct identities are distinct Set
elements.  value models the uri string (both toString and fsPath are rendered
through it here). -/
structure Uri where
  objId : Nat
  value : String
deriving DecidableEq, Repr

/-- The job kinds of src/jobs/types (as used in src/unnamed/part_001, lines
164-186). -/
inductive JobKind where
  | createFile
  | deleteFile
  | moveFile
  | copyFile
  | rewriteFile
  | moveAndRewriteFile
deriving DecidableEq, Repr

/-- A job as consumed by CampaignManagerProvider.__buildCaseElementsAndLatestJob
(src/unnamed/part_001): hash, kind, optional oldUri / newUri and creation
timestamp. -/
structure Job where
  hash : String
  kind : JobKind
  oldUri : Option Uri
  newUri : Option Uri
  createdAt : Nat
deriving DecidableEq, Repr

/-- The kinds whose newUri is added to the uriSet (src/unnamed/part_001, lines
166-176). -/
def newUriKinds : List JobKind :=
  [JobKind.createFile, JobKind.moveFile, JobKind.moveAndRewriteFile, JobKind.copyFile]

/-- The kinds whose oldUri is added to the uriSet (src/unnamed/part_001, lines
178-185). -/
def oldUriKinds : List JobKind :=
  [JobKind.rewriteFile, JobKind.deleteFile]

/-- Embeds the uriSet construction of __buildCaseElementsAndLatestJob
(src/unnamed/part_001, lines 164-188): for each job, its newUri is added when
the kind is a create, move, moveAndRewrite or copy, and its oldUri is added
when the kind is a rewrite or delete; the Set deduplicates Uri objects by
reference. -/
def collectUris (jobs : List Job) : List Uri :=
  jobs.foldl (fun s job =>
    let s1 := match job.newUri with
      | some u => if job.kind ∈ newUriKinds then addElem s u else s
      | none => s
    match job.oldUri with
    | some u => if job.kind ∈ oldUriKinds then addElem s1 u else s1
    | none => s1) []

/-- Removal of the first occurrence of a nonempty pattern from a list of
characters, as performed by the JavaScript String.replace call with an empty
replacement string. -/
def jsDropFirstOccur (pat : List Char) : List Char → List Char
  | [] => []
  | c :: tl =>
    if pat.isPrefixOf (c :: tl) then (c :: tl).drop pat.length
    else c :: jsDropFirstOccur pat tl

/-- JavaScript uri.fsPath.replace(rootPath, ''): replaces the first occurrence
of rootPath by the empty string (a no-op when rootPath is empty, matching the
JavaScript result for an empty search string and empty replacement). -/
def replaceFirstWithEmpty (s pat : String) : String :=
  if pat = "" then s else String.mk (jsDropFirstOccur pat.data s.data)

/-- A file-level element of the campaign manager tree: the case hash, the
label derived from the uri, and the hashes of the job children placed under
the node (src/unnamed/part_001, lines 190-206). -/
structure FileElement where
  caseHash : String
  label : String
  jobHashes : List String
deriving DecidableEq, Repr

/-- Embeds the file-level construction of __buildCaseElementsAndLatestJob
(src/unnamed/part_001, lines 188-206): one FileElement per entry of the
uriSet, holding every job of the case whose newUri or oldUri stringifies to
that entry. -/
def buildFileElements (rootPath : String) (caseHash : String) (jobs : List Job) :
    List FileElement :=
  (collectUris jobs).map (fun uri =>
    { caseHash := caseHash
      label := replaceFirstWithEmpty uri.value rootPath
      jobHashes := (jobs.filter (fun job =>
        job.newUri.map Uri.value == some uri.value ||
          job.oldUri.map Uri.value == some uri.value)).map Job.hash })

/-- The message posted by the MainViewProvider showProgress subscription
(src/unnamed/part_000, lines 459-465): the codemod hash, progress kind and the
total and processed file numbers of the engine progress event. -/
structure CodemodExecutionProgressMsg where
  codemodHash : String
  progressKind : String
  totalFileNumber : Nat
  processedFileNumber : Nat
deriving DecidableEq, Repr

/-- Embeds the MessageKind.showProgress subscription of MainViewProvider
(src/unnamed/part_000, lines 454-466): an event whose codemodHash is null is
dropped; otherwise the progress numbers are reposted unchanged to the webview. -/
def mainViewShowProgressHandler (codemodHash : Option String) (progressKind : String)
    (totalFileNumber processedFileNumber : Nat) : Option CodemodExecutionProgressMsg :=
  match codemodHash with
  | none => none
  | some h =>
    some { codemodHash := h, progressKind := progressKind,
           totalFileNumber := totalFileNumber, processedFileNumber := processedFileNumber }

/-- Math.round applied to the nonnegative quotient num / den for den > 0,
rounding half up.  The source computes Math.round((processedFiles / totalFiles)
* 100) in floating point; the rounding itself is modelled exactly over the
rationals. -/
def jsRound (num den : Nat) : Nat := (2 * num + den) / (2 * den)

/-- Embeds CodemodListPanelProvider.handleCodemodExecutionProgress
(src/unnamed/part_000, lines 1062-1083): an event with a falsy codemodHash
(absent or empty) or with totalFiles equal to zero is dropped; otherwise a
rounded percentage is posted together with the codemod hash.  The ternary
guard totalFiles > 0 of the source is kept although it is always true on this
path. -/
def handleCodemodExecutionProgress (processedFiles totalFiles : Nat)
    (codemodHash : Option String) : Option (Nat × String) :=
  match codemodHash with
  | none => none
  | some h =>
    if h = "" ∨ totalFiles = 0 then none
    else
      let progress := if totalFiles > 0 then jsRound (processedFiles * 100) totalFiles else 0
      some (progress, h)

/-- An observable step performed by MainViewProvider.updateExecutionPath
(src/unnamed/part_000, lines 884-949): user-facing messages and dispatches of
the setExecutionPath action. -/
inductive UpdatePathEffect where
  | showWarningMessage (message : String)
  | showInformationMessage (message : String)
  | showErrorMessage (message : String)
  | dispatchSetExecutionPath (codemodHash : String) (path : String)
deriving DecidableEq, Repr

/-- True exactly for the dispatches of the setExecutionPath action. -/
def UpdatePathEffect.isSetExecutionPath : UpdatePathEffect → Bool
  | .dispatchSetExecutionPath _ _ => true
  | _ => false

/-- Embeds MainViewProvider.updateExecutionPath (src/unnamed/part_000, lines
884-949) as the list of effects it performs.  rootUriPresent models whether
this.__rootUri is non-null; statOk models whether workspace.fs.stat(newPath)
resolves; executionPaths models state.codemodDiscoveryView.executionPaths.
On a stat failure with a persisted old path, the source dispatches the same
setExecutionPath restore action in both branches of the
revertToPrevExecutionIfInvalid conditional; the two branches are kept
verbatim. -/
def updateExecutionPath (rootUriPresent statOk : Bool)
    (executionPaths : List (String × String)) (newPath codemodHash : String)
    (errorMessage warningMessage : Option String)
    (revertToPrevExecutionIfInvalid fromVSCodeCommand : Bool) : List UpdatePathEffect :=
  if !rootUriPresent then [UpdatePathEffect.showWarningMessage "No active workspace is found."]
  else
    let oldExecutionPath := lookupAssoc executionPaths codemodHash
    if statOk then
      [UpdatePathEffect.dispatchSetExecutionPath codemodHash newPath] ++
        (if oldExecutionPath ≠ some newPath ∧ fromVSCodeCommand = false then
          [UpdatePathEffect.showInformationMessage "Successfully updated the execution path."]
        else [])
    else
      (match errorMessage with
        | some m => [UpdatePathEffect.showErrorMessage m]
        | none => []) ++
      (match warningMessage with
        | some m => [UpdatePathEffect.showWarningMessage m]
        | none => []) ++
      (match oldExecutionPath with
        | none => []
        | some old =>
          if revertToPrevExecutionIfInvalid then
            [UpdatePathEffect.dispatchSetExecutionPath codemodHash old]
          else
            [UpdatePathEffect.dispatchSetExecutionPath codemodHash old])

/-- The redux actions dispatched by the apply and discard commands of
src/unnamed/part_001 (lines 626-739). -/
inductive ReduxAction where
  | setApplySelectedInProgress (value : Bool)
  | clearSelectedExplorerNodes (caseHash : String)
  | clearIndeterminateExplorerNodes (caseHash : String)
deriving DecidableEq, Repr

/-- The observable effects of the apply and discard commands: redux dispatches,
the job manager calls, a vscode command execution, the error popup and the
error telemetry. -/
inductive CommandEffect where
  | dispatch (action : ReduxAction)
  | acceptJobs (jobHashes : List String)
  | deleteJobs (jobHashes : List String)
  | executeCommand (commandId : String)
  | showErrorMessage (message : String)
  | sendErrorTelemetry (commandName : String)
deriving DecidableEq, Repr

/-- True exactly for the effect that drives the File Service against the real
filesystem.  Modelled from the spec: JobManager.acceptJobs (not under src/)
makes the File Service perform the writes, renames, copies and deletes implied
by the accepted jobs, while JobManager.deleteJobs only instructs the Job Store
and Case Store to drop the given identifiers and performs no filesystem
effect. -/
def CommandEffect.drivesFileSystem : CommandEffect → Bool
  | .acceptJobs _ => true
  | _ => false

/-- The slice of the redux store state read and written by the apply and
discard commands: the selected case hash of the codemod runs tab, the per-case
selected and indeterminate explorer node sets, the apply-in-progress flag and
the job hashes held by the Job Store. -/
structure StoreState where
  selectedCaseHash : Option String
  selectedExplorerNodes : List (String × List String)
  indeterminateExplorerNodes : List (String × List String)
  applySelectedInProgress : Bool
  jobEntities : List String
deriving DecidableEq, Repr

/-- Interpretation of one effect on the store state.  The reducers of the
three actions and the two JobManager operations are not under src/; they are
modelled from the spec: clearing resets the per-case entry to the empty set,
and accepting or deleting jobs prunes the given identifiers from the Job
Store. -/
def applyEffect (s : StoreState) : CommandEffect → StoreState
  | .dispatch (.setApplySelectedInProgress b) => { s with applySelectedInProgress := b }
  | .dispatch (.clearSelectedExplorerNodes h) =>
      { s with selectedExplorerNodes := setAssoc s.selectedExplorerNodes h [] }
  | .dispatch (.clearIndeterminateExplorerNodes h) =>
      { s with indeterminateExplorerNodes := setAssoc s.indeterminateExplorerNodes h [] }
  | .acceptJobs hashes => { s with jobEntities := s.jobEntities.filter (fun j => !(hashes.contains j)) }
  | .deleteJobs hashes => { s with jobEntities := s.jobEntities.filter (fun j => !(hashes.contains j)) }
  | .executeCommand _ => s
  | .showErrorMessage _ => s
  | .sendErrorTelemetry _ => s

/-- Folding the effect interpretation over an effect list. -/
def runEffects (s : StoreState) (effects : List CommandEffect) : StoreState :=
  effects.foldl applyEffect s

/-- Embeds the command intuita.sourceControl.saveStagedJobsToTheFileSystem
(src/unnamed/part_001, lines 626-689) as the list of effects it performs.
decodedCaseHash is none when caseHashCodec.decode fails (the thrown error
reaches the catch block); treeSelectedJobHashes models the selectedJobHashes
of the selectExplorerTree result (the selector is not under src/; per the spec
it returns exactly the selected leaves of the explorer tree of the case), with
none for a null tree.  The finally block dispatches
setApplySelectedInProgress false on every path. -/
def saveStagedJobsTrace (decodedCaseHash : Option String)
    (treeSelectedJobHashes : Option (List String)) (s : StoreState) : List CommandEffect :=
  [CommandEffect.dispatch (.setApplySelectedInProgress true)] ++
  (match decodedCaseHash with
   | none =>
     [CommandEffect.sendErrorTelemetry "intuita.sourceControl.saveStagedJobsToTheFileSystem",
      CommandEffect.showErrorMessage "could not decode the case hash digest"]
   | some h =>
     if s.selectedCaseHash = some h then
       match treeSelectedJobHashes with
       | none => [CommandEffect.dispatch (.setApplySelectedInProgress false)]
       | some sel =>
         [CommandEffect.acceptJobs (jsSetOfList sel),
          CommandEffect.dispatch (.clearSelectedExplorerNodes h),
          CommandEffect.dispatch (.clearIndeterminateExplorerNodes h),
          CommandEffect.executeCommand "workbench.view.scm"]
     else []) ++
  [CommandEffect.dispatch (.setApplySelectedInProgress false)]

/-- Embeds the command intuita.discardJobs (src/unnamed/part_001, lines
691-739) as the list of effects it performs, with the same conventions as the
apply command; the catch block shows the error popup before sending the
telemetry. -/
def discardJobsTrace (decodedCaseHash : Option String)
    (treeSelectedJobHashes : Option (List String)) (s : StoreState) : List CommandEffect :=
  match decodedCaseHash with
  | none =>
    [CommandEffect.showErrorMessage "could not decode the case hash digest",
     CommandEffect.sendErrorTelemetry "intuita.discardJobs"]
  | some h =>
    if s.selectedCaseHash = some h then
      match treeSelectedJobHashes with
      | none => []
      | some sel =>
        [CommandEffect.deleteJobs sel,
         CommandEffect.dispatch (.clearSelectedExplorerNodes h),
         CommandEffect.dispatch (.clearIndeterminateExplorerNodes h)]
    else []

/-- Embeds the decoding of the selectedExplorerNodes field of
persistedStateCodecNew (src/unnamed/part_002, lines 114-117): a record from
case hashes to arrays of explorer node hash digests wrapped in withFallback,
so an absent or invalid stored value falls back to the empty record while a
valid stored record is kept exactly as persisted.  The input is the validation
outcome of the raw stored value. -/
def decodeSelectedExplorerNodes (raw : Option (List (String × List String))) :
    List (String × List String) :=
  raw.getD []

/-- Embeds the decoding of the indeterminateExplorerNodes field of
persistedStateCodecNew (src/unnamed/part_002, lines 126-129), with the same
withFallback semantics as decodeSelectedExplorerNodes. -/
def decodeIndeterminateExplorerNodes (raw : Option (List (String × List String))) :
    List (String × List String) :=
  raw.getD []

/-- Tri-state selection flag of an explorer tree node. -/
inductive TriState where
  | unselected
  | selected
  | indeterminate
deriving DecidableEq, Repr

/-- A file-level node of the selection tree of a case, with the hashes of its
job-level leaves. -/
structure SelFile where
  uri : String
  jobs : List String
deriving DecidableEq, Repr

/-- The selection tree of one case: its file-level nodes. -/
structure SelTree where
  files : List SelFile
deriving DecidableEq, Repr

/-- All job-level leaves of the tree, in tree order. -/
def SelTree.leaves (t : SelTree) : List String :=
  (t.files.map SelFile.jobs).flatten

/-- Modelled from the spec (section 4.3; the redux slice holding the explorer
selection reducers is not under src/): the aggregate tri-state of an ancestor
node over its leaves: selected when all leaves are selected, unselected when
none is, indeterminate otherwise. -/
def aggregate (jobs sel : List String) : TriState :=
  if ∀ j ∈ jobs, j ∈ sel then TriState.selected
  else if ∀ j ∈ jobs, j ∉ sel then TriState.unselected
  else TriState.indeterminate

/-- The selection state kept for one case: the selected job-level leaves, the
stored per-file tri-states and the stored case tri-state.  The ancestor states
are stored and incrementally maintained, mirroring the selectedExplorerNodes
and indeterminateExplorerNodes records of the store. -/
structure SelState where
  selectedLeaves : List String
  fileStates : List (String × TriState)
  caseState : TriState
deriving DecidableEq, Repr

/-- A toggle operation on the selection tree. -/
inductive SelOp where
  | toggleJob (jobHash : String)
  | toggleFile (uri : String)
  | toggleCase
deriving DecidableEq, Repr

/-- Flip one leaf in the selected set. -/
def flipLeaf (sel : List String) (j : String) : List String :=
  if j ∈ sel then sel.filter (fun x => x ≠ j) else sel ++ [j]

/-- Select (turnOn = true) or deselect (turnOn = false) a whole group of leaves. -/
def setLeaves (sel jobs : List String) (turnOn : Bool) : List String :=
  if turnOn then jobs.foldl addElem sel else sel.filter (fun x => x ∉ jobs)

/-- Modelled from the spec (section 4.3, not under src/): toggle flips a leaf
or sets all leaf descendants of an ancestor (an ancestor whose aggregate is
selected deselects all, otherwise - also from indeterminate - all descendants
become selected), and the stored tri-states are incrementally maintained by
recomputing only the ancestor chain of the changed leaves.  A toggle that
references a node no longer present in the tree is a stale-reference no-op. -/
def toggleJobOp (t : SelTree) (s : SelState) (j : String) : SelState :=
  match t.files.find? (fun f => f.jobs.contains j) with
  | none => s
  | some f =>
    let sel := flipLeaf s.selectedLeaves j
    { selectedLeaves := sel
      fileStates := setAssoc s.fileStates f.uri (aggregate f.jobs sel)
      caseState := aggregate t.leaves sel }

/-- Toggle of a file-level ancestor node (see applyOp). -/
def toggleFileOp (t : SelTree) (s : SelState) (uri : String) : SelState :=
  match t.files.find? (fun f => f.uri == uri) with
  | none => s
  | some f =>
    let sel := setLeaves s.selectedLeaves f.jobs
      (decide (aggregate f.jobs s.selectedLeaves ≠ TriState.selected))
    { selectedLeaves := sel
      fileStates := setAssoc s.fileStates f.uri (aggregate f.jobs sel)
      caseState := aggregate t.leaves sel }

/-- Toggle of the case-level ancestor node (see applyOp). -/
def toggleCaseOp (t : SelTree) (s : SelState) : SelState :=
  let sel := setLeaves s.selectedLeaves t.leaves
    (decide (aggregate t.leaves s.selectedLeaves ≠ TriState.selected))
  { selectedLeaves := sel
    fileStates :=
      t.files.foldl (fun st f => setAssoc st f.uri (aggregate f.jobs sel)) s.fileStates
    caseState := aggregate t.leaves sel }

/-- Dispatch of a toggle operation to the node level it addresses. -/
def applyOp (t : SelTree) (s : SelState) : SelOp → SelState
  | SelOp.toggleJob j => toggleJobOp t s j
  | SelOp.toggleFile uri => toggleFileOp t s uri
  | SelOp.toggleCase => toggleCaseOp t s

/-- The initial selection state of a case: no leaf selected and every stored
ancestor state computed from the empty leaf selection. -/
def initState (t : SelTree) : SelState :=
  { selectedLeaves := []
    fileStates := t.files.foldl (fun st f => setAssoc st f.uri (aggregate f.jobs [])) []
    caseState := aggregate t.leaves [] }

/-- Well-formedness of a selection tree: file uris are distinct, distinct
files hold disjoint job sets (a job belongs to one file node), and every file
node has at least one job (file nodes only arise from jobs). -/
def WfSelTree (t : SelTree) : Prop :=
  (t.files.map SelFile.uri).Nodup ∧
  (∀ f ∈ t.files, ∀ g ∈ t.files, f.uri ≠ g.uri → ∀ j ∈ f.jobs, j ∉ g.jobs) ∧
  (∀ f ∈ t.files, f.jobs ≠ [])

/-- The consistency invariant: every stored ancestor state equals the
aggregate of its leaves over the current leaf selection. -/
def SelInv (t : SelTree) (s : SelState) : Prop :=
  (∀ f ∈ t.files,
    lookupAssoc s.fileStates f.uri = some (aggregate f.jobs s.selectedLeaves)) ∧
  s.caseState = aggregate t.leaves s.selectedLeaves

/-- The concrete two-file tree used by the witness of claim C1. -/
def c1DemoTree : SelTree :=
  { files := [{ uri := "f1", jobs := ["j1", "j2"] }, { uri := "f2", jobs := ["j3"] }] }

/-- The concrete toggle sequence used by the witness of claim C1: select one
job of the first file, then toggle the second file. -/
def c1DemoOps : List SelOp :=
  [SelOp.toggleJob "j1", SelOp.toggleFile "f2"]

/-- A case tree node held by the CampaignManagerProvider tree map
(src/unnamed/part_001, lines 276-302); the webview commands and children of
the source node are omitted as they play no role in __selectCase. -/
structure CaseTreeNode where
  id : String
  iconName : String
  label : String
  caseApplied : Bool
deriving DecidableEq, Repr

/-- The message posted by __selectCase. -/
inductive CampaignManagerMsg where
  | selectCase (node : CaseTreeNode)
deriving DecidableEq, Repr

/-- Embeds CampaignManagerProvider.__selectCase (src/unnamed/part_001, lines
95-105): the case hash is looked up in the tree map and, when the node is no
longer present, the method returns without posting a message, throwing
nothing and changing nothing. -/
def selectCaseHandler (treeMap : List (String × CaseTreeNode)) (hash : String) :
    Option CampaignManagerMsg :=
  match lookupAssoc treeMap hash with
  | none => none
  | some node => some (CampaignManagerMsg.selectCase node)

/-- The concrete tree map node used by the witness of claim C6. -/
def c6DemoNode : CaseTreeNode :=
  { id := "c1", iconName := "case.svg", label := "case one", caseApplied := false }

/-- The concrete one-file selection tree used by the witness of claim C6. -/
def c6DemoTree : SelTree :=
  { files := [{ uri := "f1", jobs := ["j1"] }] }

/-- Status of an execution request (spec section 4.5). -/
inductive ReqStatus where
  | queued
  | running
  | completed
  | failed
  | halted
deriving DecidableEq, Repr

/-- Modelled from the spec (section 4.5; the engine service owning the
execution queue is not under src/): the queue state holds the FIFO pending
request ids, the at most one running request, the terminal statuses of
finished requests, and the caseCreated events published so far (one per
completed request, carrying its id). -/
structure QueueState where
  pending : List Nat
  running : Option Nat
  done : List (Nat × ReqStatus)
  events : List Nat
deriving DecidableEq, Repr

/-- The operations of the execution queue. -/
inductive QueueOp where
  | enqueue (id : Nat)
  | startNext
  | emitProgress (processedFiles totalFiles : Nat)
  | complete
  | fail
  | halt
deriving DecidableEq, Repr

/-- Modelled from the spec (section 4.5): one queue transition.  enqueue
appends to the FIFO; startNext promotes the head of the queue when nothing
runs; complete finishes the running request and publishes its caseCreated
event; fail finishes it with no case; halt marks the running request and
every still-queued request halted without executing them and publishes
nothing. -/
def qstep (s : QueueState) : QueueOp → QueueState
  | QueueOp.enqueue id => { s with pending := s.pending ++ [id] }
  | QueueOp.startNext =>
    match s.running, s.pending with
    | none, id :: rest => { s with running := some id, pending := rest }
    | _, _ => s
  | QueueOp.emitProgress _ _ => s
  | QueueOp.complete =>
    match s.running with
    | some id =>
      { s with running := none, done := s.done ++ [(id, ReqStatus.completed)],
               events := s.events ++ [id] }
    | none => s
  | QueueOp.fail =>
    match s.running with
    | some id => { s with running := none, done := s.done ++ [(id, ReqStatus.failed)] }
    | none => s
  | QueueOp.halt =>
    { pending := []
      running := none
      done := s.done ++
        (match s.running with
         | some id => [(id, ReqStatus.halted)]
         | none => []) ++ s.pending.map (fun id => (id, ReqStatus.halted))
      events := s.events }

/-- A request id that the queue has frozen as halted: recorded halted, not
running and not pending. -/
def HaltedFrozen (id : Nat) (s : QueueState) : Prop :=
  (id, ReqStatus.halted) ∈ s.done ∧ s.running ≠ some id ∧ id ∉ s.pending

/-- The concrete queue state used by the witness of claim C8: request 1 is
running, requests 2 and 3 are queued, and one caseCreated event for request 7
was published earlier. -/
def c8DemoState : QueueState :=
  { pending := [2, 3], running := some 1, done := [(7, ReqStatus.completed)], events := [7] }

/-- The concrete continuation used by the witness of claim C8. -/
def c8DemoOps : List QueueOp :=
  [QueueOp.startNext, QueueOp.enqueue 5, QueueOp.startNext, QueueOp.complete]

theorem lookupAssoc_setAssoc_self {α β : Type} [DecidableEq α]
    (l : List (α × β)) (k : α) (v : β) :
    lookupAssoc (setAssoc l k v) k = some v := by
  induction l with
  | nil => simp [setAssoc, lookupAssoc]
  | cons p tl ih =>
    by_cases hp : p.1 = k
    · simp [setAssoc, hp, lookupAssoc]
    · simp [setAssoc, hp, lookupAssoc, ih]

theorem lookupAssoc_setAssoc_ne {α β : Type} [DecidableEq α]
    (l : List (α × β)) (k k' : α) (v : β) (h : k' ≠ k) :
    lookupAssoc (setAssoc l k v) k' = lookupAssoc l k' := by
  have hk : ¬ (k = k') := fun hkk => h hkk.symm
  induction l with
  | nil => simp [setAssoc, lookupAssoc, hk]
  | cons p tl ih =>
    by_cases hp : p.1 = k
    · have hpk' : ¬ (p.1 = k') := by rw [hp]; exact hk
      simp [setAssoc, hp, lookupAssoc, hk, hpk']
    · by_cases hp' : p.1 = k'
      · simp [setAssoc, hp, lookupAssoc, hp', h]
      · simp [setAssoc, hp, lookupAssoc, hp', ih]

theorem mem_addElem {α : Type} [DecidableEq α] (s : List α) (a x : α) :
    x ∈ addElem s a ↔ x ∈ s ∨ x = a := by
  unfold addElem
  by_cases h : a ∈ s
  · simp only [if_pos h]
    constructor
    · exact Or.inl
    · rintro (hx | rfl)
      · exact hx
      · exact h
  · simp [if_neg h, List.mem_append]

theorem mem_foldl_addElem {α : Type} [DecidableEq α] (l : List α) (acc : List α) (x : α) :
    x ∈ l.foldl addElem acc ↔ x ∈ acc ∨ x ∈ l := by
  induction l generalizing acc with
  | nil => simp
  | cons a tl ih =>
    simp only [List.foldl_cons, ih, mem_addElem, List.mem_cons]
    tauto

theorem mem_jsSetOfList {α : Type} [DecidableEq α] (l : List α) (x : α) :
    x ∈ jsSetOfList l ↔ x ∈ l := by
  simp [jsSetOfList, mem_foldl_addElem]

/-- Claim C4, evaluation at the failing input: a case holding a rewriteFile
job and a deleteFile job whose oldUri strings are both /a.ts, held (as the
sources produce them) as two distinct Uri objects, yields TWO file-level
nodes labelled /a.ts, each containing both jobs, although the case has
exactly ONE distinct target URI; the uriSet is a Set of Uri objects and
deduplicates by reference, not by uri value, so the file level does not
contain one node per distinct target URI. -/
theorem c4_duplicate_file_nodes :
    (buildFileElements "" "caseA"
        [{ hash := "j1", kind := JobKind.rewriteFile,
           oldUri := some { objId := 1, value := "/a.ts" }, newUri := none, createdAt := 0 },
         { hash := "j2", kind := JobKind.deleteFile,
           oldUri := some { objId := 2, value := "/a.ts" }, newUri := none, createdAt := 1 }]).map
        FileElement.label = ["/a.ts", "/a.ts"] ∧
    (buildFileElements "" "caseA"
        [{ hash := "j1", kind := JobKind.rewriteFile,
           oldUri := some { objId := 1, value := "/a.ts" }, newUri := none, createdAt := 0 },
         { hash := "j2", kind := JobKind.deleteFile,
           oldUri := some { objId := 2, value := "/a.ts" }, newUri := none, createdAt := 1 }]).map
        FileElement.jobHashes = [["j1", "j2"], ["j1", "j2"]] ∧
    ((collectUris
        [{ hash := "j1", kind := JobKind.rewriteFile,
           oldUri := some { objId := 1, value := "/a.ts" }, newUri := none, createdAt := 0 },
         { hash := "j2", kind := JobKind.deleteFile,
           oldUri := some { objId := 2, value := "/a.ts" }, newUri := none, createdAt := 1 }]).map
        Uri.value).dedup = ["/a.ts"] := by
  refine ⟨?_, ?_, ?_⟩ <;> rfl

/-- Claim C7, counterexample: a progress event with processedFiles 1 and
totalFiles 2 that arrives without a codemod hash (as happens for runs started
by intuita.executeAsCodemod, whose command carries codemodHash null) is
republished by neither subscriber, so not every progress event arriving from
the engine is republished to observers. -/
theorem c7_counterexample :
    mainViewShowProgressHandler none "progress" 2 1 = none ∧
    handleCodemodExecutionProgress 1 2 none = none ∧
    handleCodemodExecutionProgress 1 0 (some "hash") = none := by
  refine ⟨rfl, rfl, rfl⟩

/-- Claim C7 as amended: every progress event that carries a codemod hash is
republished to observers as it arrives: MainViewProvider reposts the exact
processed and total file numbers, and the codemod list panel reposts a rounded
percentage whenever the hash is nonempty and totalFiles is nonzero; events
without a codemod hash, with an empty hash, or with totalFiles zero are
dropped. -/
theorem c7_progress_republished (h progressKind : String) (total processed : Nat)
    (hne : h ≠ "") (htot : total ≠ 0) :
    mainViewShowProgressHandler (some h) progressKind total processed =
      some { codemodHash := h, progressKind := progressKind,
             totalFileNumber := total, processedFileNumber := processed } ∧
    handleCodemodExecutionProgress processed total (some h) =
      some (jsRound (processed * 100) total, h) := by
  refine ⟨rfl, ?_⟩
  have hpos : total > 0 := Nat.pos_of_ne_zero htot
  simp [handleCodemodExecutionProgress, hne, htot, hpos]

/-- Witness for the amended claim C7 at the codemod hash abc with totalFiles 2
and processedFiles 1: both hypotheses hold and the event is republished by both
subscribers (the panel posts the rounded percentage 50). -/
theorem c7_progress_republished_witness :
    ("abc" ≠ "" ∧ (2 : Nat) ≠ 0) ∧
    (mainViewShowProgressHandler (some "abc") "progress" 2 1 =
      some { codemodHash := "abc", progressKind := "progress",
             totalFileNumber := 2, processedFileNumber := 1 } ∧
     handleCodemodExecutionProgress 1 2 (some "abc") = some (50, "abc")) :=
  ⟨⟨by decide, by decide⟩, c7_progress_republished "abc" "progress" 2 1 (by decide) (by decide)⟩

/-- Claim C10: whenever checking the new path fails (statOk false) and a
previously persisted execution path exists for the codemod, the only
setExecutionPath dispatch of MainViewProvider.updateExecutionPath restores the
old path, and the produced effects are identical for both values of the
revertToPrevExecutionIfInvalid flag. -/
theorem c10_revert_regardless_of_flag (executionPaths : List (String × String))
    (newPath codemodHash oldPath : String) (errorMessage warningMessage : Option String)
    (fromVSCodeCommand : Bool)
    (hold : lookupAssoc executionPaths codemodHash = some oldPath) :
    (∀ revertFlag : Bool,
      (updateExecutionPath true false executionPaths newPath codemodHash
          errorMessage warningMessage revertFlag fromVSCodeCommand).filter
          UpdatePathEffect.isSetExecutionPath =
        [UpdatePathEffect.dispatchSetExecutionPath codemodHash oldPath]) ∧
    updateExecutionPath true false executionPaths newPath codemodHash
        errorMessage warningMessage true fromVSCodeCommand =
      updateExecutionPath true false executionPaths newPath codemodHash
        errorMessage warningMessage false fromVSCodeCommand := by
  constructor
  · intro revertFlag
    cases revertFlag <;> cases errorMessage <;> cases warningMessage <;>
      simp [updateExecutionPath, hold, UpdatePathEffect.isSetExecutionPath]
  · cases errorMessage <;> cases warningMessage <;> simp [updateExecutionPath, hold]

/-- Witness for claim C10: with the persisted path /old for codemod c1 and a
failing stat of /new, the effect lists for both flag values coincide and the
single dispatch restores /old. -/
theorem c10_revert_regardless_of_flag_witness :
    lookupAssoc [("c1", "/old")] "c1" = some "/old" ∧
    ((∀ revertFlag : Bool,
      (updateExecutionPath true false [("c1", "/old")] "/new" "c1"
          (some "bad path") none revertFlag false).filter
          UpdatePathEffect.isSetExecutionPath =
        [UpdatePathEffect.dispatchSetExecutionPath "c1" "/old"]) ∧
     updateExecutionPath true false [("c1", "/old")] "/new" "c1"
        (some "bad path") none true false =
      updateExecutionPath true false [("c1", "/old")] "/new" "c1"
        (some "bad path") none false false) :=
  ⟨by decide,
   c10_revert_regardless_of_flag [("c1", "/old")] "/new" "c1" "/old"
     (some "bad path") none false (by decide)⟩

/-- Claim C3: when applySelected is invoked with the hash of the currently
selected case and the explorer tree of the case is available, the only
File-Service-driving effect of the command is a single acceptJobs call whose
argument holds exactly the selected job hashes of the tree (as a set: same
members, first occurrences kept), and afterwards the selected and
indeterminate explorer node sets of the case are cleared. -/
theorem c3_applySelected_exact (h : String) (sel : List String) (s : StoreState)
    (hsel : s.selectedCaseHash = some h) :
    ((saveStagedJobsTrace (some h) (some sel) s).filter CommandEffect.drivesFileSystem =
      [CommandEffect.acceptJobs (jsSetOfList sel)]) ∧
    (∀ j, j ∈ jsSetOfList sel ↔ j ∈ sel) ∧
    lookupAssoc (runEffects s (saveStagedJobsTrace (some h) (some sel) s)).selectedExplorerNodes
      h = some [] ∧
    lookupAssoc (runEffects s
      (saveStagedJobsTrace (some h) (some sel) s)).indeterminateExplorerNodes h = some [] := by
  refine ⟨?_, fun j => mem_jsSetOfList sel j, ?_, ?_⟩
  · simp [saveStagedJobsTrace, hsel, CommandEffect.drivesFileSystem]
  · simp [saveStagedJobsTrace, hsel, runEffects, applyEffect, lookupAssoc_setAssoc_self]
  · simp [saveStagedJobsTrace, hsel, runEffects, applyEffect, lookupAssoc_setAssoc_self]

/-- Witness for claim C3 at a concrete store whose selected case is c1 and a
tree selection holding the hash m twice: acceptJobs receives the set with the
single member m and both explorer node sets of c1 end up cleared. -/
theorem c3_applySelected_exact_witness :
    ((⟨some "c1", [("c1", ["n1"])], [("c1", ["n2"])], false, ["m", "r"]⟩ :
        StoreState).selectedCaseHash = some "c1") ∧
    (((saveStagedJobsTrace (some "c1") (some ["m", "m"])
        ⟨some "c1", [("c1", ["n1"])], [("c1", ["n2"])], false, ["m", "r"]⟩).filter
        CommandEffect.drivesFileSystem = [CommandEffect.acceptJobs (jsSetOfList ["m", "m"])]) ∧
     (∀ j, j ∈ jsSetOfList ["m", "m"] ↔ j ∈ ["m", "m"]) ∧
     lookupAssoc (runEffects ⟨some "c1", [("c1", ["n1"])], [("c1", ["n2"])], false, ["m", "r"]⟩
       (saveStagedJobsTrace (some "c1") (some ["m", "m"])
         ⟨some "c1", [("c1", ["n1"])], [("c1", ["n2"])], false, ["m", "r"]⟩)).selectedExplorerNodes
       "c1" = some [] ∧
     lookupAssoc (runEffects ⟨some "c1", [("c1", ["n1"])], [("c1", ["n2"])], false, ["m", "r"]⟩
       (saveStagedJobsTrace (some "c1") (some ["m", "m"])
         ⟨some "c1", [("c1", ["n1"])], [("c1", ["n2"])], false,
           ["m", "r"]⟩)).indeterminateExplorerNodes "c1" = some []) :=
  ⟨by decide,
   c3_applySelected_exact "c1" ["m", "m"]
     ⟨some "c1", [("c1", ["n1"])], [("c1", ["n2"])], false, ["m", "r"]⟩ (by decide)⟩

/-- Claim C5: discarding jobs performs no filesystem effect on any path of the
command: no effect of its trace drives the File Service, the selected case
hash and the apply-in-progress flag are untouched, and the Job Store either
keeps its entries (decode failure, mismatched case, missing tree) or exactly
drops the selected job identifiers. -/
theorem c5_discard_no_filesystem_effect (arg : Option String)
    (tree : Option (List String)) (s : StoreState) :
    (∀ e ∈ discardJobsTrace arg tree s, e.drivesFileSystem = false) ∧
    (runEffects s (discardJobsTrace arg tree s)).selectedCaseHash = s.selectedCaseHash ∧
    (runEffects s (discardJobsTrace arg tree s)).applySelectedInProgress =
      s.applySelectedInProgress ∧
    ((runEffects s (discardJobsTrace arg tree s)).jobEntities = s.jobEntities ∨
     ∃ sel, tree = some sel ∧
       (runEffects s (discardJobsTrace arg tree s)).jobEntities =
         s.jobEntities.filter (fun j => !(sel.contains j))) := by
  cases arg with
  | none =>
    simp [discardJobsTrace, runEffects, applyEffect, CommandEffect.drivesFileSystem]
  | some h =>
    by_cases hsel : s.selectedCaseHash = some h
    · cases tree with
      | none =>
        simp [discardJobsTrace, hsel, runEffects, applyEffect, CommandEffect.drivesFileSystem]
      | some sel =>
        refine ⟨?_, ?_, ?_, Or.inr ⟨sel, rfl, ?_⟩⟩ <;>
          simp [discardJobsTrace, hsel, runEffects, applyEffect,
            CommandEffect.drivesFileSystem]
    · simp [discardJobsTrace, hsel, runEffects, applyEffect, CommandEffect.drivesFileSystem]

/-- Claim C9: when the decoded case hash differs from the currently selected
case hash of the store, applySelected accepts no job and leaves the selection
state, the selected case hash and the Job Store untouched, and discardSelected
deletes no job and leaves the whole store state untouched. -/
theorem c9_mismatched_case_hash_noop (h : String) (treeA treeD : Option (List String))
    (s : StoreState) (hne : ¬ (s.selectedCaseHash = some h)) :
    (∀ hashes, CommandEffect.acceptJobs hashes ∉ saveStagedJobsTrace (some h) treeA s) ∧
    (runEffects s (saveStagedJobsTrace (some h) treeA s)).selectedCaseHash =
      s.selectedCaseHash ∧
    (runEffects s (saveStagedJobsTrace (some h) treeA s)).selectedExplorerNodes =
      s.selectedExplorerNodes ∧
    (runEffects s (saveStagedJobsTrace (some h) treeA s)).indeterminateExplorerNodes =
      s.indeterminateExplorerNodes ∧
    (runEffects s (saveStagedJobsTrace (some h) treeA s)).jobEntities = s.jobEntities ∧
    (∀ hashes, CommandEffect.deleteJobs hashes ∉ discardJobsTrace (some h) treeD s) ∧
    runEffects s (discardJobsTrace (some h) treeD s) = s := by
  refine ⟨?_, ?_, ?_, ?_, ?_, ?_, ?_⟩ <;>
    simp [saveStagedJobsTrace, discardJobsTrace, hne, runEffects, applyEffect]

/-- Witness for claim C9: a store whose selected case is c1 receives the apply
and discard commands for the distinct case hash c2; nothing is accepted or
deleted and the state is untouched. -/
theorem c9_mismatched_case_hash_noop_witness :
    (¬ ((⟨some "c1", [("c1", ["n1"])], [], true, ["m"]⟩ : StoreState).selectedCaseHash =
        some "c2")) ∧
    ((∀ hashes, CommandEffect.acceptJobs hashes ∉
        saveStagedJobsTrace (some "c2") (some ["m"])
          ⟨some "c1", [("c1", ["n1"])], [], true, ["m"]⟩) ∧
     (runEffects ⟨some "c1", [("c1", ["n1"])], [], true, ["m"]⟩
        (saveStagedJobsTrace (some "c2") (some ["m"])
          ⟨some "c1", [("c1", ["n1"])], [], true, ["m"]⟩)).selectedCaseHash =
       (⟨some "c1", [("c1", ["n1"])], [], true, ["m"]⟩ : StoreState).selectedCaseHash ∧
     (runEffects ⟨some "c1", [("c1", ["n1"])], [], true, ["m"]⟩
        (saveStagedJobsTrace (some "c2") (some ["m"])
          ⟨some "c1", [("c1", ["n1"])], [], true, ["m"]⟩)).selectedExplorerNodes =
       (⟨some "c1", [("c1", ["n1"])], [], true, ["m"]⟩ : StoreState).selectedExplorerNodes ∧
     (runEffects ⟨some "c1", [("c1", ["n1"])], [], true, ["m"]⟩
        (saveStagedJobsTrace (some "c2") (some ["m"])
          ⟨some "c1", [("c1", ["n1"])], [], true, ["m"]⟩)).indeterminateExplorerNodes =
       (⟨some "c1", [("c1", ["n1"])], [], true, ["m"]⟩ :
         StoreState).indeterminateExplorerNodes ∧
     (runEffects ⟨some "c1", [("c1", ["n1"])], [], true, ["m"]⟩
        (saveStagedJobsTrace (some "c2") (some ["m"])
          ⟨some "c1", [("c1", ["n1"])], [], true, ["m"]⟩)).jobEntities =
       (⟨some "c1", [("c1", ["n1"])], [], true, ["m"]⟩ : StoreState).jobEntities ∧
     (∀ hashes, CommandEffect.deleteJobs hashes ∉
        discardJobsTrace (some "c2") none ⟨some "c1", [("c1", ["n1"])], [], true, ["m"]⟩) ∧
     runEffects ⟨some "c1", [("c1", ["n1"])], [], true, ["m"]⟩
        (discardJobsTrace (some "c2") none ⟨some "c1", [("c1", ["n1"])], [], true, ["m"]⟩) =
       ⟨some "c1", [("c1", ["n1"])], [], true, ["m"]⟩) :=
  ⟨by decide,
   c9_mismatched_case_hash_noop "c2" (some ["m"]) none
     ⟨some "c1", [("c1", ["n1"])], [], true, ["m"]⟩ (by decide)⟩

/-- Claim C2, counterexample: the persisted state of persistedStateCodecNew
stores per-case explorer node selection directly.  A persisted
indeterminateExplorerNodes record mapping case caseA to the nonempty node set
nodeX is decoded back verbatim instead of being dropped and recomputed, and
likewise for a selectedExplorerNodes record holding arbitrary (not only
job-level) node hash digests, so ancestor selected and indeterminate states
are stored in the persisted state rather than never stored. -/
theorem c2_counterexample :
    decodeIndeterminateExplorerNodes (some [("caseA", ["nodeX"])]) = [("caseA", ["nodeX"])] ∧
    decodeSelectedExplorerNodes (some [("caseA", ["fileNodeY", "jobNodeZ"])]) =
      [("caseA", ["fileNodeY", "jobNodeZ"])] ∧
    decodeIndeterminateExplorerNodes (some [("caseA", ["nodeX"])]) ≠ [] := by
  refine ⟨rfl, rfl, by decide⟩

/-- Claim C2 as amended: the persisted state stores, per case, arrays of
selected and indeterminate explorer node hash digests directly, in the
selectedExplorerNodes and indeterminateExplorerNodes fields of
persistedStateCodecNew; a valid stored record is restored verbatim and an
absent or invalid one falls back to the empty record, so ancestor-level
selection bookkeeping is persisted rather than recomputed from leaf
selections alone. -/
theorem c2_explorer_selection_persisted (v w : List (String × List String)) :
    decodeSelectedExplorerNodes (some v) = v ∧
    decodeIndeterminateExplorerNodes (some w) = w ∧
    decodeSelectedExplorerNodes none = [] ∧
    decodeIndeterminateExplorerNodes none = [] :=
  ⟨rfl, rfl, rfl, rfl⟩

theorem aggregate_congr (jobs sel1 sel2 : List String)
    (h : ∀ j ∈ jobs, (j ∈ sel1 ↔ j ∈ sel2)) :
    aggregate jobs sel1 = aggregate jobs sel2 := by
  unfold aggregate
  have h1 : (∀ j ∈ jobs, j ∈ sel1) ↔ (∀ j ∈ jobs, j ∈ sel2) :=
    ⟨fun a j hj => (h j hj).1 (a j hj), fun a j hj => (h j hj).2 (a j hj)⟩
  have h2 : (∀ j ∈ jobs, j ∉ sel1) ↔ (∀ j ∈ jobs, j ∉ sel2) :=
    ⟨fun a j hj hm => a j hj ((h j hj).2 hm), fun a j hj hm => a j hj ((h j hj).1 hm)⟩
  exact if_congr h1 rfl (if_congr h2 rfl rfl)

theorem aggregate_spec (jobs sel : List String) (hne : jobs ≠ []) :
    (aggregate jobs sel = TriState.selected ↔ ∀ j ∈ jobs, j ∈ sel) ∧
    (aggregate jobs sel = TriState.unselected ↔ ∀ j ∈ jobs, j ∉ sel) ∧
    (aggregate jobs sel = TriState.indeterminate ↔
      ¬ (∀ j ∈ jobs, j ∈ sel) ∧ ¬ (∀ j ∈ jobs, j ∉ sel)) := by
  obtain ⟨j0, hj0⟩ := List.exists_mem_of_ne_nil jobs hne
  unfold aggregate
  by_cases hall : ∀ j ∈ jobs, j ∈ sel
  · have hnone : ¬ ∀ j ∈ jobs, j ∉ sel := fun hn => hn j0 hj0 (hall j0 hj0)
    rw [if_pos hall]
    refine ⟨?_, ?_, ?_⟩ <;> simp [hall, hnone] <;> assumption
  · rw [if_neg hall]
    by_cases hnone : ∀ j ∈ jobs, j ∉ sel
    · rw [if_pos hnone]
      refine ⟨?_, ?_, ?_⟩ <;> simp [hall, hnone] <;> assumption
    · rw [if_neg hnone]
      refine ⟨?_, ?_, ?_⟩ <;> simp [hall, hnone]

theorem mem_flipLeaf_self (sel : List String) (j : String) :
    j ∈ flipLeaf sel j ↔ j ∉ sel := by
  unfold flipLeaf
  by_cases h : j ∈ sel <;> simp [h, List.mem_filter]

theorem mem_flipLeaf_ne (sel : List String) (j x : String) (hx : x ≠ j) :
    x ∈ flipLeaf sel j ↔ x ∈ sel := by
  unfold flipLeaf
  by_cases h : j ∈ sel <;> simp [h, List.mem_filter, hx]

theorem mem_setLeaves_notin (sel jobs : List String) (turnOn : Bool) (x : String)
    (hx : x ∉ jobs) :
    x ∈ setLeaves sel jobs turnOn ↔ x ∈ sel := by
  cases turnOn <;> simp [setLeaves, mem_foldl_addElem, List.mem_filter, hx]

theorem lookup_foldl_setAssoc_frame (sel : List String) (files : List SelFile)
    (st : List (String × TriState)) (u : String) (hu : u ∉ files.map SelFile.uri) :
    lookupAssoc
      (files.foldl (fun acc g => setAssoc acc g.uri (aggregate g.jobs sel)) st) u =
      lookupAssoc st u := by
  induction files generalizing st with
  | nil => rfl
  | cons g tl ih =>
    simp only [List.map_cons, List.mem_cons] at hu
    push_neg at hu
    simp only [List.foldl_cons]
    rw [ih _ hu.2]
    exact lookupAssoc_setAssoc_ne _ _ _ _ hu.1

theorem lookup_foldl_setAssoc (sel : List String) (files : List SelFile)
    (st : List (String × TriState)) (f : SelFile) (hf : f ∈ files)
    (hnd : (files.map SelFile.uri).Nodup) :
    lookupAssoc
      (files.foldl (fun acc g => setAssoc acc g.uri (aggregate g.jobs sel)) st) f.uri =
      some (aggregate f.jobs sel) := by
  induction files generalizing st with
  | nil => simp at hf
  | cons g tl ih =>
    simp only [List.map_cons, List.nodup_cons] at hnd
    simp only [List.foldl_cons]
    rcases List.mem_cons.mp hf with rfl | hmem
    · rw [lookup_foldl_setAssoc_frame _ _ _ _ hnd.1]
      exact lookupAssoc_setAssoc_self _ _ _
    · exact ih _ hmem hnd.2

theorem uri_inj_of_nodup (files : List SelFile) (hnd : (files.map SelFile.uri).Nodup)
    (f g : SelFile) (hf : f ∈ files) (hg : g ∈ files) (h : f.uri = g.uri) : f = g :=
  List.inj_on_of_nodup_map hnd hf hg h

theorem applyOp_toggleJob_eq (t : SelTree) (s : SelState) (j : String) (f : SelFile)
    (hfind : t.files.find? (fun g => g.jobs.contains j) = some f) :
    applyOp t s (SelOp.toggleJob j) =
      { selectedLeaves := flipLeaf s.selectedLeaves j
        fileStates :=
          setAssoc s.fileStates f.uri (aggregate f.jobs (flipLeaf s.selectedLeaves j))
        caseState := aggregate t.leaves (flipLeaf s.selectedLeaves j) } := by
  show toggleJobOp t s j = _
  unfold toggleJobOp
  rw [hfind]

theorem applyOp_toggleFile_eq (t : SelTree) (s : SelState) (uri : String) (f : SelFile)
    (hfind : t.files.find? (fun g => g.uri == uri) = some f) :
    applyOp t s (SelOp.toggleFile uri) =
      { selectedLeaves := setLeaves s.selectedLeaves f.jobs
          (decide (aggregate f.jobs s.selectedLeaves ≠ TriState.selected))
        fileStates := setAssoc s.fileStates f.uri (aggregate f.jobs
          (setLeaves s.selectedLeaves f.jobs
            (decide (aggregate f.jobs s.selectedLeaves ≠ TriState.selected))))
        caseState := aggregate t.leaves
          (setLeaves s.selectedLeaves f.jobs
            (decide (aggregate f.jobs s.selectedLeaves ≠ TriState.selected))) } := by
  show toggleFileOp t s uri = _
  unfold toggleFileOp
  rw [hfind]

theorem selInv_applyOp (t : SelTree) (hwf : WfSelTree t) (s : SelState)
    (hinv : SelInv t s) (op : SelOp) : SelInv t (applyOp t s op) := by
  obtain ⟨hnd, hdisj, hjne⟩ := hwf
  obtain ⟨hfiles, hcase⟩ := hinv
  cases op with
  | toggleJob j =>
    cases hfind : t.files.find? (fun g => g.jobs.contains j) with
    | none =>
      have hnoop : applyOp t s (SelOp.toggleJob j) = s := by
        show toggleJobOp t s j = s
        unfold toggleJobOp
        rw [hfind]
      rw [hnoop]
      exact ⟨hfiles, hcase⟩
    | some f =>
      have hfmem : f ∈ t.files := List.mem_of_find?_eq_some hfind
      have hfj : j ∈ f.jobs := by
        have h := List.find?_some hfind
        simpa using h
      rw [applyOp_toggleJob_eq t s j f hfind]
      refine ⟨?_, rfl⟩
      intro g hg
      dsimp only
      by_cases hgu : g.uri = f.uri
      · have hgf : g = f := uri_inj_of_nodup t.files hnd g f hg hfmem hgu
        subst hgf
        exact lookupAssoc_setAssoc_self _ _ _
      · rw [lookupAssoc_setAssoc_ne _ _ _ _ hgu, hfiles g hg]
        congr 1
        apply aggregate_congr
        intro x hx
        have hxj : x ≠ j := by
          intro heq
          exact (hdisj f hfmem g hg (fun he => hgu he.symm) j hfj) (heq ▸ hx)
        exact (mem_flipLeaf_ne s.selectedLeaves j x hxj).symm
  | toggleFile uri =>
    cases hfind : t.files.find? (fun g => g.uri == uri) with
    | none =>
      have hnoop : applyOp t s (SelOp.toggleFile uri) = s := by
        show toggleFileOp t s uri = s
        unfold toggleFileOp
        rw [hfind]
      rw [hnoop]
      exact ⟨hfiles, hcase⟩
    | some f =>
      have hfmem : f ∈ t.files := List.mem_of_find?_eq_some hfind
      rw [applyOp_toggleFile_eq t s uri f hfind]
      refine ⟨?_, rfl⟩
      intro g hg
      dsimp only
      by_cases hgu : g.uri = f.uri
      · have hgf : g = f := uri_inj_of_nodup t.files hnd g f hg hfmem hgu
        subst hgf
        exact lookupAssoc_setAssoc_self _ _ _
      · rw [lookupAssoc_setAssoc_ne _ _ _ _ hgu, hfiles g hg]
        congr 1
        apply aggregate_congr
        intro x hx
        have hxf : x ∉ f.jobs := hdisj g hg f hfmem (fun he => hgu he) x hx
        exact (mem_setLeaves_notin s.selectedLeaves f.jobs _ x hxf).symm
  | toggleCase =>
    refine ⟨?_, rfl⟩
    intro g hg
    exact lookup_foldl_setAssoc _ t.files s.fileStates g hg hnd

theorem selInv_init (t : SelTree) (hnd : (t.files.map SelFile.uri).Nodup) :
    SelInv t (initState t) := by
  refine ⟨?_, rfl⟩
  intro f hf
  exact lookup_foldl_setAssoc [] t.files [] f hf hnd

theorem selInv_foldl (t : SelTree) (hwf : WfSelTree t) (s : SelState) (hinv : SelInv t s)
    (ops : List SelOp) : SelInv t (ops.foldl (applyOp t) s) := by
  induction ops generalizing s with
  | nil => exact hinv
  | cons op tl ih => exact ih _ (selInv_applyOp t hwf s hinv op)

/-- Claim C1: for every selection state reachable by any sequence of toggle
operations from the initial state, every stored file-level tri-state and the
stored case-level tri-state are selected iff all of the leaf descendants of
the node are selected, unselected iff none of them is, and indeterminate
otherwise (the case-level characterization is stated for cases that own at
least one leaf; for a node with no leaves the claim is degenerate since all
and none coincide). -/
theorem c1_tristate_invariant (t : SelTree) (hwf : WfSelTree t) (ops : List SelOp) :
    let s := ops.foldl (applyOp t) (initState t)
    (∀ f ∈ t.files, ∃ st,
      lookupAssoc s.fileStates f.uri = some st ∧
      (st = TriState.selected ↔ ∀ j ∈ f.jobs, j ∈ s.selectedLeaves) ∧
      (st = TriState.unselected ↔ ∀ j ∈ f.jobs, j ∉ s.selectedLeaves) ∧
      (st = TriState.indeterminate ↔
        ¬ (∀ j ∈ f.jobs, j ∈ s.selectedLeaves) ∧ ¬ (∀ j ∈ f.jobs, j ∉ s.selectedLeaves))) ∧
    (t.leaves ≠ [] →
      (s.caseState = TriState.selected ↔ ∀ j ∈ t.leaves, j ∈ s.selectedLeaves) ∧
      (s.caseState = TriState.unselected ↔ ∀ j ∈ t.leaves, j ∉ s.selectedLeaves) ∧
      (s.caseState = TriState.indeterminate ↔
        ¬ (∀ j ∈ t.leaves, j ∈ s.selectedLeaves) ∧
          ¬ (∀ j ∈ t.leaves, j ∉ s.selectedLeaves))) := by
  intro s
  have hinv : SelInv t s := selInv_foldl t hwf (initState t) (selInv_init t hwf.1) ops
  obtain ⟨hfiles, hcase⟩ := hinv
  constructor
  · intro f hf
    refine ⟨aggregate f.jobs s.selectedLeaves, hfiles f hf, ?_⟩
    exact aggregate_spec f.jobs s.selectedLeaves (hwf.2.2 f hf)
  · intro hnel
    rw [hcase]
    exact aggregate_spec t.leaves s.selectedLeaves hnel

/-- Witness for claim C1: the demo tree is well formed and the tri-state
characterization holds in the state reached by the demo toggles. -/
theorem c1_tristate_invariant_witness :
    WfSelTree c1DemoTree ∧
    (let s := c1DemoOps.foldl (applyOp c1DemoTree) (initState c1DemoTree)
     (∀ f ∈ c1DemoTree.files, ∃ st,
       lookupAssoc s.fileStates f.uri = some st ∧
       (st = TriState.selected ↔ ∀ j ∈ f.jobs, j ∈ s.selectedLeaves) ∧
       (st = TriState.unselected ↔ ∀ j ∈ f.jobs, j ∉ s.selectedLeaves) ∧
       (st = TriState.indeterminate ↔
         ¬ (∀ j ∈ f.jobs, j ∈ s.selectedLeaves) ∧
           ¬ (∀ j ∈ f.jobs, j ∉ s.selectedLeaves))) ∧
     (c1DemoTree.leaves ≠ [] →
       (s.caseState = TriState.selected ↔ ∀ j ∈ c1DemoTree.leaves, j ∈ s.selectedLeaves) ∧
       (s.caseState = TriState.unselected ↔
         ∀ j ∈ c1DemoTree.leaves, j ∉ s.selectedLeaves) ∧
       (s.caseState = TriState.indeterminate ↔
         ¬ (∀ j ∈ c1DemoTree.leaves, j ∈ s.selectedLeaves) ∧
           ¬ (∀ j ∈ c1DemoTree.leaves, j ∉ s.selectedLeaves)))) :=
  ⟨⟨by decide, by decide, by decide⟩,
   c1_tristate_invariant c1DemoTree ⟨by decide, by decide, by decide⟩ c1DemoOps⟩

/-- Claim C6: a selection operation referencing a node no longer present is a
no-op: __selectCase posts nothing for a case hash absent from the tree map,
and a toggle of a job or file node that is absent from the selection tree
(modelled from the spec) leaves the selection state unchanged; none of these
operations raises an exception (each is a total function). -/
theorem c6_stale_selection_noop (treeMap : List (String × CaseTreeNode)) (hash : String)
    (t : SelTree) (s : SelState) (j uri : String)
    (hmap : lookupAssoc treeMap hash = none)
    (hj : t.files.find? (fun f => f.jobs.contains j) = none)
    (hu : t.files.find? (fun f => f.uri == uri) = none) :
    selectCaseHandler treeMap hash = none ∧
    applyOp t s (SelOp.toggleJob j) = s ∧
    applyOp t s (SelOp.toggleFile uri) = s := by
  refine ⟨?_, ?_, ?_⟩
  · unfold selectCaseHandler
    rw [hmap]
  · show toggleJobOp t s j = s
    unfold toggleJobOp
    rw [hj]
  · show toggleFileOp t s uri = s
    unfold toggleFileOp
    rw [hu]

/-- Witness for claim C6: a tree map holding only case c1 receives a select
for the stale hash c2, and a one-file selection tree receives toggles for a
stale job and a stale file; all three are no-ops. -/
theorem c6_stale_selection_noop_witness :
    (lookupAssoc [("c1", c6DemoNode)] "c2" = none ∧
     c6DemoTree.files.find? (fun f => f.jobs.contains "j9") = none ∧
     c6DemoTree.files.find? (fun f => f.uri == "f9") = none) ∧
    (selectCaseHandler [("c1", c6DemoNode)] "c2" = none ∧
     applyOp c6DemoTree (initState c6DemoTree) (SelOp.toggleJob "j9") =
       initState c6DemoTree ∧
     applyOp c6DemoTree (initState c6DemoTree) (SelOp.toggleFile "f9") =
       initState c6DemoTree) :=
  ⟨⟨by decide, by decide, by decide⟩,
   c6_stale_selection_noop [("c1", c6DemoNode)] "c2" c6DemoTree (initState c6DemoTree)
     "j9" "f9" (by decide) (by decide) (by decide)⟩

theorem qstep_events (s : QueueState) (op : QueueOp) :
    (qstep s op).events = s.events ∨
    ∃ r, s.running = some r ∧ (qstep s op).events = s.events ++ [r] := by
  cases op with
  | enqueue id => exact Or.inl rfl
  | startNext =>
    cases hr : s.running with
    | some r => exact Or.inl (by simp [qstep, hr])
    | none =>
      cases hp : s.pending with
      | nil => exact Or.inl (by simp [qstep, hr, hp])
      | cons a tl => exact Or.inl (by simp [qstep, hr, hp])
  | emitProgress p t => exact Or.inl rfl
  | complete =>
    cases hr : s.running with
    | none => exact Or.inl (by simp [qstep, hr])
    | some r => exact Or.inr ⟨r, rfl, by simp [qstep, hr]⟩
  | fail =>
    cases hr : s.running with
    | none => exact Or.inl (by simp [qstep, hr])
    | some r => exact Or.inl (by simp [qstep, hr])
  | halt => exact Or.inl rfl

theorem haltedFrozen_qstep (id : Nat) (s : QueueState) (op : QueueOp)
    (hf : HaltedFrozen id s) (hop : ∀ eid, op = QueueOp.enqueue eid → eid ≠ id) :
    HaltedFrozen id (qstep s op) := by
  obtain ⟨hdone, hrun, hpend⟩ := hf
  cases op with
  | enqueue eid =>
    have heid : id ≠ eid := fun h => hop eid rfl h.symm
    refine ⟨hdone, hrun, ?_⟩
    simp [qstep, List.mem_append, hpend, heid]
  | startNext =>
    cases hr : s.running with
    | some r => simpa [qstep, hr] using ⟨hdone, hrun, hpend⟩
    | none =>
      cases hp : s.pending with
      | nil => simpa [qstep, hr, hp] using ⟨hdone, hrun, hpend⟩
      | cons a tl =>
        have hane : ¬ (a = id) := by
          intro h
          subst h
          exact hpend (hp ▸ List.mem_cons_self _ _)
        refine ⟨by simpa [qstep, hr, hp] using hdone, ?_, ?_⟩
        · simpa [qstep, hr, hp] using hane
        · have : id ∉ tl := fun hmem => hpend (hp ▸ List.mem_cons_of_mem a hmem)
          simpa [qstep, hr, hp] using this
  | emitProgress p t => exact ⟨hdone, hrun, hpend⟩
  | complete =>
    cases hr : s.running with
    | none => simpa [qstep, hr] using ⟨hdone, hrun, hpend⟩
    | some r =>
      refine ⟨?_, ?_, ?_⟩
      · simp only [qstep, hr]
        exact List.mem_append.mpr (Or.inl hdone)
      · simp [qstep, hr]
      · simpa [qstep, hr] using hpend
  | fail =>
    cases hr : s.running with
    | none => simpa [qstep, hr] using ⟨hdone, hrun, hpend⟩
    | some r =>
      refine ⟨?_, ?_, ?_⟩
      · simp only [qstep, hr]
        exact List.mem_append.mpr (Or.inl hdone)
      · simp [qstep, hr]
      · simpa [qstep, hr] using hpend
  | halt =>
    refine ⟨?_, ?_, ?_⟩
    · simp only [qstep]
      exact List.mem_append.mpr (Or.inl (List.mem_append.mpr (Or.inl hdone)))
    · simp [qstep]
    · simp [qstep]

theorem haltedFrozen_foldl (id : Nat) (s : QueueState) (ops : List QueueOp)
    (hf : HaltedFrozen id s)
    (hfresh : ∀ eid, QueueOp.enqueue eid ∈ ops → eid ≠ id) :
    HaltedFrozen id (ops.foldl qstep s) ∧
    (∀ x ∈ (ops.foldl qstep s).events, x ∈ s.events ∨ x ≠ id) := by
  induction ops generalizing s with
  | nil => exact ⟨hf, fun x hx => Or.inl hx⟩
  | cons op tl ih =>
    have hop : ∀ eid, op = QueueOp.enqueue eid → eid ≠ id := fun eid he =>
      hfresh eid (he ▸ List.mem_cons_self _ _)
    have hf1 := haltedFrozen_qstep id s op hf hop
    have hfresh1 : ∀ eid, QueueOp.enqueue eid ∈ tl → eid ≠ id := fun eid hm =>
      hfresh eid (List.mem_cons_of_mem _ hm)
    obtain ⟨hfa, hev⟩ := ih (qstep s op) hf1 hfresh1
    refine ⟨hfa, ?_⟩
    intro x hx
    rcases hev x hx with hin | hne
    · rcases qstep_events s op with he | ⟨r, hr, he⟩
      · rw [he] at hin
        exact Or.inl hin
      · rw [he] at hin
        rcases List.mem_append.mp hin with h1 | h2
        · exact Or.inl h1
        · have hxr : x = r := by simpa using h2
          subst hxr
          refine Or.inr ?_
          intro hxe
          subst hxe
          exact hf.2.1 hr
    · exact Or.inr hne

theorem qstep_halt_halts (s : QueueState) (id : Nat)
    (hid : s.running = some id ∨ id ∈ s.pending) :
    (id, ReqStatus.halted) ∈ (qstep s QueueOp.halt).done ∧
    (qstep s QueueOp.halt).running = none ∧
    (qstep s QueueOp.halt).pending = [] ∧
    (qstep s QueueOp.halt).events = s.events := by
  refine ⟨?_, rfl, rfl, rfl⟩
  rcases hid with hr | hp
  · simp only [qstep, hr]
    exact List.mem_append.mpr (Or.inl (List.mem_append.mpr (Or.inr (by simp))))
  · simp only [qstep]
    exact List.mem_append.mpr (Or.inr (List.mem_map.mpr ⟨id, hp, rfl⟩))

/-- Claim C8: after a halt command, the request that was running and every
still-queued request are recorded halted, nothing remains pending or running;
along any continuation of the queue none of them is ever running again (so a
still-queued request is never executed) and every caseCreated event published
after the halt concerns other requests (an event for a halted id can only be
one already published before the halt). -/
theorem c8_halt_terminal (s : QueueState) (id : Nat) (ops : List QueueOp)
    (hid : s.running = some id ∨ id ∈ s.pending)
    (hfresh : ∀ eid, QueueOp.enqueue eid ∈ ops → eid ≠ id) :
    let s1 := qstep s QueueOp.halt
    ((id, ReqStatus.halted) ∈ s1.done ∧ s1.running = none ∧ s1.pending = []) ∧
    (∀ p q, ops = p ++ q →
      (id, ReqStatus.halted) ∈ (p.foldl qstep s1).done ∧
      (p.foldl qstep s1).running ≠ some id ∧
      id ∉ (p.foldl qstep s1).pending) ∧
    (∀ x ∈ (ops.foldl qstep s1).events, x = id → x ∈ s.events) := by
  intro s1
  obtain ⟨hdone, hrun, hpend, hev⟩ := qstep_halt_halts s id hid
  have hf1 : HaltedFrozen id s1 := ⟨hdone, by rw [hrun]; simp, by rw [hpend]; simp⟩
  refine ⟨⟨hdone, hrun, hpend⟩, ?_, ?_⟩
  · intro p q hpq
    have hfreshp : ∀ eid, QueueOp.enqueue eid ∈ p → eid ≠ id := fun eid hm =>
      hfresh eid (hpq ▸ List.mem_append.mpr (Or.inl hm))
    exact (haltedFrozen_foldl id s1 p hf1 hfreshp).1
  · intro x hx hxid
    obtain ⟨_, hevs⟩ := haltedFrozen_foldl id s1 ops hf1 hfresh
    rcases hevs x hx with hin | hne
    · rw [hev] at hin
      exact hin
    · exact absurd hxid hne

/-- Witness for claim C8 at the queued request 2: it is halted by the halt
command, never runs along the demo continuation, and no caseCreated event for
it is ever published after the halt. -/
theorem c8_halt_terminal_witness :
    (c8DemoState.running = some 1 ∨ 2 ∈ c8DemoState.pending) ∧
    (∀ eid, QueueOp.enqueue eid ∈ c8DemoOps → eid ≠ 2) ∧
    (let s1 := qstep c8DemoState QueueOp.halt
     ((2, ReqStatus.halted) ∈ s1.done ∧ s1.running = none ∧ s1.pending = []) ∧
     (∀ p q, c8DemoOps = p ++ q →
       (2, ReqStatus.halted) ∈ (p.foldl qstep s1).done ∧
       (p.foldl qstep s1).running ≠ some 2 ∧
       2 ∉ (p.foldl qstep s1).pending) ∧
     (∀ x ∈ (c8DemoOps.foldl qstep s1).events, x = 2 → x ∈ c8DemoState.events)) :=
  ⟨by decide,
   fun eid hm => by
     simp only [c8DemoOps, List.mem_cons, List.not_mem_nil, or_false] at hm
     rcases hm with h | h | h | h <;> simp_all,
   c8_halt_terminal c8DemoState 2 c8DemoOps (by decide)
     (fun eid hm => by
       simp only [c8DemoOps, List.mem_cons, List.not_mem_nil, or_false] at hm
       rcases hm with h | h | h | h <;> simp_all)⟩
